import Mathlib

/-!
Verification development for `src/Python/satfire.py` (rnleach/findfire).

The Python module queries two sqlite databases (a `fires` table with columns
`fire_id`, `satellite`, `merged_into`, and a `clusters` table joined through an
`associations` table) and post-processes the results with pandas.  We embed the
relevant relational data and the module's query/grouping logic as executable
Lean functions:

* machine timestamps are epoch seconds (`Int`), and a calendar date is encoded
  as the number of whole days since the epoch;
* SQL `REAL` power/temperature values are modelled as exact rationals (`Rat`);
* the recursive CTE in `total_fire_power_time_series` uses `UNION ALL`, i.e. a
  work queue with no duplicate elimination, which we model with an explicit
  fuel parameter: `none` means the query has not finished within `fuel` steps;
* a pandas failure (e.g. the `KeyError` raised by `sat.loc[0]` on an empty
  frame) is modelled with `Except`.
-/

namespace Satfire

/-- Insert an integer into an ascending duplicate-free list, keeping it sorted
and duplicate-free.  Together with `sortedKeys` this models the sorted distinct
key sequences produced by SQL `GROUP BY`/`ORDER BY` on a key, by pandas
`groupby` (which sorts group keys), and by python `sorted(set(...))`. -/
def insertAsc (x : Int) : List Int → List Int
  | [] => [x]
  | y :: ys => if x < y then x :: y :: ys else if x = y then y :: ys else y :: insertAsc x ys

/-- The sorted list of distinct elements of `l`. -/
def sortedKeys (l : List Int) : List Int := l.foldr insertAsc []

theorem mem_insertAsc (a x : Int) (l : List Int) : a ∈ insertAsc x l ↔ a = x ∨ a ∈ l := by
  induction l with
  | nil => simp [insertAsc]
  | cons y ys ih =>
    by_cases h1 : x < y
    · simp [insertAsc, h1]
    · by_cases h2 : x = y
      · subst h2
        simp [insertAsc, h1]
      · simp [insertAsc, h1, h2, ih]
        tauto

theorem sorted_insertAsc (x : Int) (l : List Int) (h : l.Sorted (· < ·)) :
    (insertAsc x l).Sorted (· < ·) := by
  induction l with
  | nil => simp [insertAsc]
  | cons y ys ih =>
    rw [List.sorted_cons] at h
    by_cases h1 : x < y
    · simp only [insertAsc, if_pos h1]
      rw [List.sorted_cons, List.sorted_cons]
      refine ⟨?_, h⟩
      intro b hb
      rcases List.mem_cons.mp hb with hb | hb
      · exact hb ▸ h1
      · exact lt_trans h1 (h.1 b hb)
    · by_cases h2 : x = y
      · simp only [insertAsc, if_neg h1, if_pos h2]
        rw [List.sorted_cons]
        exact h
      · simp only [insertAsc, if_neg h1, if_pos h2, if_neg h2]
        rw [List.sorted_cons]
        constructor
        · intro b hb
          rcases (mem_insertAsc b x ys).mp hb with hb | hb
          · omega
          · exact h.1 b hb
        · exact ih h.2

theorem mem_sortedKeys (a : Int) (l : List Int) : a ∈ sortedKeys l ↔ a ∈ l := by
  induction l with
  | nil => simp [sortedKeys]
  | cons x xs ih =>
    show a ∈ insertAsc x (sortedKeys xs) ↔ _
    rw [mem_insertAsc, ih]
    simp

theorem sorted_sortedKeys (l : List Int) : (sortedKeys l).Sorted (· < ·) := by
  induction l with
  | nil => simp [sortedKeys]
  | cons x xs ih => exact sorted_insertAsc x (sortedKeys xs) ih

theorem nodup_sortedKeys (l : List Int) : (sortedKeys l).Nodup :=
  (sorted_sortedKeys l).nodup

/-! ### Data model

`FireRecord` is a row of the `fires` table, `Cluster` a row of `ff.clusters`,
`Assoc` a row of `associations`, and `TSRow` a row of the data frame returned
by `total_fire_power_time_series` (scan start time, total power, maximum
temperature). -/

structure FireRecord where
  fire_id : Int
  satellite : String
  merged_into : Option Int
deriving DecidableEq

structure Cluster where
  cluster_id : Int
  start_time : Int
  power : Rat
  max_temperature : Rat
deriving DecidableEq

structure Assoc where
  fire_id : Int
  cluster_id : Int
deriving DecidableEq

structure TSRow where
  st : Int
  power : Rat
  maxt : Rat
deriving DecidableEq

/-- The `fire_id` column of the `fires` table. -/
def fireIds (tbl : List FireRecord) : List Int := tbl.map (·.fire_id)

/-! ### Merge-closure resolver

`total_fire_power_time_series` runs the recursive CTE

    find_mergers(x) AS (VALUES(?) UNION ALL
                        SELECT fire_id FROM fires, find_mergers WHERE merged_into = find_mergers.x)

sqlite evaluates a recursive CTE with a queue of pending rows; `UNION ALL`
performs no duplicate elimination, so each step pops a value `x` and appends
every `fire_id` whose `merged_into` equals `x`.  `cteRun` is that loop with an
explicit fuel bound; `none` means the loop has not terminated within `fuel`
steps (for every fuel), i.e. the query hangs. -/

/-- `SELECT fire_id FROM fires WHERE merged_into = x`. -/
def children (tbl : List FireRecord) (x : Int) : List Int :=
  (tbl.filter (fun rec => rec.merged_into == some x)).map (·.fire_id)

/-- One queue step per unit of fuel: pop `x`, emit it, enqueue its children. -/
def cteRun (tbl : List FireRecord) : List Int → List Int → Nat → Option (List Int)
  | _, _, 0 => none
  | [], acc, _ + 1 => some acc
  | x :: rest, acc, fuel + 1 => cteRun tbl (rest ++ children tbl x) (acc ++ [x]) fuel

/-- All rows produced by the `find_mergers` CTE seeded with `r`. -/
def find_mergers (tbl : List FireRecord) (r : Int) (fuel : Nat) : Option (List Int) :=
  cteRun tbl [r] [] fuel

/-- `SELECT fire_id FROM fires WHERE fire_id IN find_mergers ORDER BY fire_id ASC`:
the sorted set of fire ids of the table that occur among the CTE rows
(`fire_id` is the primary key of `fires`, so the rows are distinct). -/
def resolve_closure (tbl : List FireRecord) (r : Int) (fuel : Nat) : Option (List Int) :=
  (find_mergers tbl r fuel).map
    (fun ms => sortedKeys ((fireIds tbl).filter (fun f => decide (f ∈ ms))))

/-- `a` merged (directly) into `b`: the `fires` table has a row for `a` whose
`merged_into` is `b`. -/
def IsMergeStep (tbl : List FireRecord) (a b : Int) : Prop :=
  ∃ rec, rec ∈ tbl ∧ rec.fire_id = a ∧ rec.merged_into = some b

/-- The `merged_into` chain from `a` reaches `b` in zero or more steps. -/
def Reaches (tbl : List FireRecord) (a b : Int) : Prop :=
  Relation.ReflTransGen (IsMergeStep tbl) a b

/-- The `merged_into` chain from `a` reaches `b` in one or more steps. -/
def MergesInto (tbl : List FireRecord) (a b : Int) : Prop :=
  Relation.TransGen (IsMergeStep tbl) a b

theorem mem_children (tbl : List FireRecord) (x c : Int) :
    c ∈ children tbl x ↔ IsMergeStep tbl c x := by
  simp only [children, List.mem_map, List.mem_filter, beq_iff_eq, IsMergeStep]
  constructor
  · rintro ⟨rec, ⟨hmem, hmi⟩, hid⟩
    exact ⟨rec, hmem, hid, hmi⟩
  · rintro ⟨rec, hmem, hid, hmi⟩
    exact ⟨rec, ⟨hmem, hmi⟩, hid⟩

/-- Characterisation of a terminating CTE run: starting from a state whose
queue and accumulator only hold values reaching `r` and which still "covers"
every value reaching `r`, the final row list holds exactly the values from
which the `merged_into` chain reaches `r`. -/
theorem cteRun_char (tbl : List FireRecord) (r : Int) :
    ∀ (fuel : Nat) (queue acc res : List Int),
      cteRun tbl queue acc fuel = some res →
      (∀ y ∈ queue, Reaches tbl y r) →
      (∀ y ∈ acc, Reaches tbl y r) →
      (∀ f, Reaches tbl f r → f ∈ acc ∨ ∃ y ∈ queue, Reaches tbl f y) →
      ∀ f, f ∈ res ↔ Reaches tbl f r := by
  intro fuel
  induction fuel with
  | zero =>
    intro queue acc res h
    simp [cteRun] at h
  | succ n ih =>
    intro queue acc res h hq ha hc f
    cases queue with
    | nil =>
      simp only [cteRun, Option.some.injEq] at h
      subst h
      constructor
      · exact ha f
      · intro hr
        rcases hc f hr with hacc | ⟨y, hy, _⟩
        · exact hacc
        · exact absurd hy (List.not_mem_nil y)
    | cons x rest =>
      simp only [cteRun] at h
      refine ih (rest ++ children tbl x) (acc ++ [x]) res h ?_ ?_ ?_ f
      · intro y hy
        rcases List.mem_append.mp hy with hy | hy
        · exact hq y (List.mem_cons_of_mem x hy)
        · exact Relation.ReflTransGen.head ((mem_children tbl x y).mp hy)
            (hq x (List.mem_cons_self x rest))
      · intro y hy
        rcases List.mem_append.mp hy with hy | hy
        · exact ha y hy
        · have hyx : y = x := List.mem_singleton.mp hy
          rw [hyx]
          exact hq x (List.mem_cons_self x rest)
      · intro g hg
        rcases hc g hg with hacc | ⟨y, hy, hgy⟩
        · exact Or.inl (List.mem_append_left _ hacc)
        · rcases List.mem_cons.mp hy with hyx | hymem
          · rw [hyx] at hgy
            rcases Relation.ReflTransGen.cases_tail hgy with hgx | ⟨c, hgc, hcx⟩
            · refine Or.inl (List.mem_append_right _ ?_)
              rw [hgx]
              exact List.mem_singleton_self g
            · exact Or.inr ⟨c, List.mem_append_right _ ((mem_children tbl x c).mpr hcx), hgc⟩
          · exact Or.inr ⟨y, List.mem_append_left _ hymem, hgy⟩

/-- A terminating `find_mergers` run produces exactly the values whose
`merged_into` chain reaches the seed `r`. -/
theorem find_mergers_char (tbl : List FireRecord) (r : Int) (fuel : Nat) (res : List Int)
    (h : find_mergers tbl r fuel = some res) : ∀ f, f ∈ res ↔ Reaches tbl f r := by
  refine cteRun_char tbl r fuel [r] [] res h ?_ ?_ ?_
  · intro y hy
    rcases List.mem_singleton.mp hy with rfl
    exact Relation.ReflTransGen.refl
  · intro y hy
    exact absurd hy (List.not_mem_nil y)
  · intro f hf
    exact Or.inr ⟨r, List.mem_singleton_self r, hf⟩

/-- A terminating `resolve_closure` run produces exactly the fire ids of the
table whose `merged_into` chain reaches the queried id `r`. -/
theorem resolve_closure_char (tbl : List FireRecord) (r : Int) (fuel : Nat) (l : List Int)
    (h : resolve_closure tbl r fuel = some l) :
    ∀ f, f ∈ l ↔ f ∈ fireIds tbl ∧ Reaches tbl f r := by
  intro f
  rw [resolve_closure] at h
  cases hfm : find_mergers tbl r fuel with
  | none =>
    rw [hfm] at h
    simp at h
  | some res =>
    rw [hfm] at h
    have hl := Option.some.inj h
    rw [← hl, mem_sortedKeys, List.mem_filter]
    simp only [decide_eq_true_eq]
    rw [find_mergers_char tbl r fuel res hfm f]

/-! ### Time-series aggregator

The main query of `total_fire_power_time_series`:

    SELECT ff.clusters.start_time as st, SUM(ff.clusters.power) as tp,
           MAX(ff.clusters.max_temperature) as maxt
    FROM associations JOIN ff.clusters ON ff.clusters.cluster_id = associations.cluster_id
    WHERE associations.fire_id in (closure)
    GROUP BY st ORDER BY st ASC

`REAL` values are modelled as exact rationals. -/

/-- The joined observation rows: one row per pair of an association whose
`fire_id` is in the closure and a cluster with that `cluster_id`. -/
def joinedObs (clusters : List Cluster) (assocs : List Assoc) (closure : List Int) :
    List Cluster :=
  (assocs.filter (fun a => decide (a.fire_id ∈ closure))).flatMap
    (fun a => clusters.filter (fun c => c.cluster_id == a.cluster_id))

/-- `SUM(power)` over a group of joined rows. -/
def sumPowers (obs : List Cluster) : Rat := (obs.map (·.power)).sum

/-- Maximum of a list of rationals, `0` for the empty list (SQL `MAX` is only
taken over the non-empty groups produced by `GROUP BY`). -/
def listMaxR : List Rat → Rat
  | [] => 0
  | x :: xs => xs.foldl max x

/-- `MAX(max_temperature)` over a group of joined rows. -/
def maxTemp (obs : List Cluster) : Rat := listMaxR (obs.map (·.max_temperature))

/-- The data frame produced by the grouped aggregate query: one row per
distinct `start_time` among the joined observations, in ascending order. -/
def aggregate (clusters : List Cluster) (assocs : List Assoc) (closure : List Int) :
    List TSRow :=
  (sortedKeys ((joinedObs clusters assocs closure).map (·.start_time))).map
    (fun t =>
      let grp := (joinedObs clusters assocs closure).filter (fun c => c.start_time == t)
      ⟨t, sumPowers grp, maxTemp grp⟩)

/-- `SELECT satellite FROM fires WHERE fires.fire_id = ?` followed by
`sat.loc[0]`: the satellite of the first matching row, if any. -/
def satLookup (tbl : List FireRecord) (fid : Int) : Option String :=
  ((tbl.filter (fun rec => rec.fire_id == fid)).map (·.satellite)).head?

/-- `total_fire_power_time_series`: resolve the merge closure (`none` while the
recursive CTE has not terminated), aggregate, then look the satellite up with
`sat.loc[0]`, which raises a `KeyError` (modelled with `Except.error`) when the
satellite query returned no row. -/
def total_fire_power_time_series (tbl : List FireRecord) (clusters : List Cluster)
    (assocs : List Assoc) (fid : Int) (fuel : Nat) :
    Option (Except String (List TSRow × String)) :=
  match resolve_closure tbl fid fuel with
  | none => none
  | some closure =>
    match satLookup tbl fid with
    | none => some (Except.error "KeyError: 0")
    | some s => some (Except.ok (aggregate clusters assocs closure, s))

theorem le_foldl_max (xs : List Rat) : ∀ a : Rat, a ≤ xs.foldl max a := by
  induction xs with
  | nil => intro a; exact le_refl a
  | cons z zs ih =>
    intro a
    exact le_trans (le_max_left a z) (ih (max a z))

theorem mem_le_foldl_max (xs : List Rat) :
    ∀ (a : Rat), ∀ y ∈ xs, y ≤ xs.foldl max a := by
  induction xs with
  | nil => intro a y hy; exact absurd hy (List.not_mem_nil y)
  | cons z zs ih =>
    intro a y hy
    rcases List.mem_cons.mp hy with rfl | hy
    · exact le_trans (le_max_right a y) (le_foldl_max zs (max a y))
    · exact ih (max a z) y hy

theorem foldl_max_mem (xs : List Rat) : ∀ a : Rat, xs.foldl max a = a ∨ xs.foldl max a ∈ xs := by
  induction xs with
  | nil => intro a; exact Or.inl rfl
  | cons z zs ih =>
    intro a
    rcases ih (max a z) with h | h
    · rcases max_cases a z with ⟨hm, _⟩ | ⟨hm, _⟩
      · exact Or.inl (by rw [List.foldl_cons, h, hm])
      · refine Or.inr ?_
        rw [List.foldl_cons, h, hm]
        exact List.mem_cons_self z zs
    · exact Or.inr (List.mem_cons_of_mem z h)

/-- For a non-empty list, `listMaxR` is an element of the list. -/
theorem listMaxR_mem (l : List Rat) (h : l ≠ []) : listMaxR l ∈ l := by
  cases l with
  | nil => exact absurd rfl h
  | cons x xs =>
    rcases foldl_max_mem xs x with hx | hx
    · rw [listMaxR, hx]
      exact List.mem_cons_self x xs
    · exact List.mem_cons_of_mem x hx

/-- `listMaxR` bounds every element of the list. -/
theorem le_listMaxR (l : List Rat) : ∀ y ∈ l, y ≤ listMaxR l := by
  cases l with
  | nil => intro y hy; exact absurd hy (List.not_mem_nil y)
  | cons x xs =>
    intro y hy
    rcases List.mem_cons.mp hy with rfl | hy
    · exact le_foldl_max xs y
    · exact mem_le_foldl_max xs x y hy

/-! ### Burn-day bucketizer

`total_fire_power_by_day` shifts each scan-start timestamp back by
`break_hour_z` hours, computes a "second of burn day" column from the shifted
time of day, and groups the data frame.  Timestamps are epoch seconds;
`timeHour`/`timeMinute`/`timeSecond` are the clock components of a (naive UTC)
timestamp, and `dateOfEpoch` encodes its calendar date as whole days since the
epoch. -/

def timeHour (s : Int) : Int := s % 86400 / 3600

def timeMinute (s : Int) : Int := s % 86400 % 3600 / 60

def timeSecond (s : Int) : Int := s % 86400 % 60

def dateOfEpoch (s : Int) : Int := s / 86400

/-- `to_second_of_burn_day` from the source: subtract `break_hour_z` hours,
take the `.time()` components, and recombine them into seconds. -/
def to_second_of_burn_day (break_hour_z t : Int) : Int :=
  3600 * timeHour (t - 3600 * break_hour_z) + 60 * timeMinute (t - 3600 * break_hour_z) +
    timeSecond (t - 3600 * break_hour_z)

/-- The calendar date of the shifted timestamp: the burn day the spec assigns
to a scan time. -/
def burn_day (break_hour_z t : Int) : Int := dateOfEpoch (t - 3600 * break_hour_z)

/-- The grouping key actually produced by `to_date` in the source.  The python
function returns `(val - timedelta(hours=break_hour_z)).date` WITHOUT calling
it: the value is the bound method object, not a date.  Two such bound methods
compare equal (and hash alike) exactly when the underlying shifted timestamps
are equal, so as a `groupby` key the bound method is equivalent to the shifted
timestamp itself, which is how we model it. -/
def to_date_key (break_hour_z t : Int) : Int := t - 3600 * break_hour_z

/-- `df.groupby(key)`: one group per distinct key value, keys in ascending
order, each group holding the rows with that key in their original order. -/
def groupByKey (key : TSRow → Int) (rows : List TSRow) : List (Int × List TSRow) :=
  (sortedKeys (rows.map key)).map (fun d => (d, rows.filter (fun r => key r == d)))

/-- The grouping performed by `total_fire_power_by_day` on an already-built
time-series frame: `df.groupby(to_date)` with the buggy `to_date` above. -/
def total_fire_power_by_day_groups (break_hour_z : Int) (rows : List TSRow) :
    List (Int × List TSRow) :=
  groupByKey (fun r => to_date_key break_hour_z r.st) rows

/-- The grouping the spec describes: group rows by the calendar date of the
shifted timestamp.  Used to state what the code diverges from. -/
def groups_by_burn_day (break_hour_z : Int) (rows : List TSRow) :
    List (Int × List TSRow) :=
  groupByKey (fun r => burn_day break_hour_z r.st) rows

/-! ### Multi-series aligner and plot pipeline

`make_daily_fire_power_plot` normalises its `fire_id` argument, collects one
day-grouped series per fire id (optionally restricted to an inclusive day
range), computes the sorted union `all_days` of the day keys, builds one panel
per day (`axs_dict`), and plots each series' data on the panel of its day. -/

/-- `list(set(day for daily_data in daily_datas for day, data in daily_data))`
followed by `.sort()`: the sorted union of the day keys of all series. -/
def all_days (datas : List (List (Int × List TSRow))) : List Int :=
  sortedKeys (datas.flatMap (fun s => s.map Prod.fst))

/-- `axs_dict[day]` viewed as a lookup that returns the position of the day's
panel: `axs_dict = {day: ax for day, ax in zip(all_days, axs)}`. -/
def axsLookup (days : List Int) (d : Int) : Option Nat :=
  days.findIdx? (fun x => x == d)

/-- The plot calls one series `p = (fire_id, daily_data)` contributes to the
panel of day `d`: one entry per `(day, data)` pair of the series with
`day = d`.  A series with no data on `d` contributes the empty list. -/
def seriesEntries (d : Int) (p : Int × List (Int × List TSRow)) : List (Int × List TSRow) :=
  (p.2.filter (fun q => q.1 == d)).map (fun q => (p.1, q.2))

/-- Everything drawn on the panel of day `d`. -/
def panelEntries (datas : List (Int × List (Int × List TSRow))) (d : Int) :
    List (Int × List TSRow) :=
  datas.flatMap (seriesEntries d)

/-- Modelled from the spec: `src/Python/satfire.py` only contains the
union-of-days N-way aligner (`make_daily_fire_power_plot`); the
"exactly-two-series alignment that joins on shared days only (a day absent
from either side is dropped, not unioned)" required by §4.4 of the spec is not
present under `src/`.  Following the spec's words, the join-mode day set keeps
exactly the days present in both input series, sorted ascending. -/
def alignTwoJoinDays (s1 s2 : List (Int × List TSRow)) : List Int :=
  sortedKeys ((s1.map Prod.fst).filter (fun d => decide (d ∈ s2.map Prod.fst)))

/-- The `fire_id` argument of `make_daily_fire_power_plot`: either a bare
integer or a sequence of integers. -/
inductive FireIdArg where
  | scalar : Int → FireIdArg
  | seq : List Int → FireIdArg
deriving DecidableEq

/-- The `isinstance(fire_id, Iterable)` normalisation at the top of
`make_daily_fire_power_plot`: a sequence is materialised with `tuple(...)`, a
bare integer is wrapped as the one-element tuple `(fire_id,)`. -/
def normalize_fire_id : FireIdArg → List Int
  | FireIdArg.scalar f => [f]
  | FireIdArg.seq l => l

/-- The day-range restriction of `__get_daily_data`: keep groups with
`day >= start` when `start` is given and `day <= end` when `end` is given. -/
def filterDayRange (startDay stopDay : Option Int) (groups : List (Int × List TSRow)) :
    List (Int × List TSRow) :=
  let g1 := match startDay with
    | none => groups
    | some s => groups.filter (fun p => decide (s ≤ p.1))
  match stopDay with
  | none => g1
  | some e => g1.filter (fun p => decide (p.1 ≤ e))

/-- `__get_daily_data` for one fire id: the full per-fire pipeline
(closure-resolving query, aggregation, satellite lookup, day grouping, day
range filter). -/
def get_daily_data (tbl : List FireRecord) (clusters : List Cluster) (assocs : List Assoc)
    (fid : Int) (break_hour_z : Int) (fuel : Nat) (startDay stopDay : Option Int) :
    Option (Except String (List (Int × List TSRow) × String)) :=
  match total_fire_power_time_series tbl clusters assocs fid fuel with
  | none => none
  | some (Except.error e) => some (Except.error e)
  | some (Except.ok (df, s)) =>
    some (Except.ok
      (filterDayRange startDay stopDay (total_fire_power_by_day_groups break_hour_z df), s))

/-- The data `make_daily_fire_power_plot` assembles before rendering: one
day-grouped series per normalised fire id. -/
def make_daily_fire_power_plot_data (tbl : List FireRecord) (clusters : List Cluster)
    (assocs : List Assoc) (arg : FireIdArg) (break_hour_z : Int) (fuel : Nat)
    (startDay stopDay : Option Int) :
    List (Option (Except String (List (Int × List TSRow) × String))) :=
  (normalize_fire_id arg).map
    (fun fid => get_daily_data tbl clusters assocs fid break_hour_z fuel startDay stopDay)

/-! ### Concrete tables used by the claim instances -/

/-- A merge chain `3 → 2 → 1` (`merged_into`). -/
def chainTbl : List FireRecord :=
  [⟨1, "G17", none⟩, ⟨2, "G17", some 1⟩, ⟨3, "G17", some 2⟩]

/-- A single fire no other fire's `merged_into` points to. -/
def soloTbl : List FireRecord := [⟨4, "G16", none⟩]

/-- A malformed table whose `merged_into` edges form the cycle `1 → 2 → 1`. -/
def cycleTbl : List FireRecord := [⟨1, "G17", some 2⟩, ⟨2, "G17", some 1⟩]

/-! ### Further helper lemmas -/

theorem aggregate_map_st (clusters : List Cluster) (assocs : List Assoc) (closure : List Int) :
    (aggregate clusters assocs closure).map (·.st) =
      sortedKeys ((joinedObs clusters assocs closure).map (·.start_time)) := by
  rw [aggregate, List.map_map]
  have h : ((fun row : TSRow => row.st) ∘ fun t =>
      let grp := (joinedObs clusters assocs closure).filter (fun c => c.start_time == t)
      (⟨t, sumPowers grp, maxTemp grp⟩ : TSRow)) = fun t => t := rfl
  rw [h, List.map_id']

theorem satLookup_eq_none (tbl : List FireRecord) (fid : Int) (h : fid ∉ fireIds tbl) :
    satLookup tbl fid = none := by
  rw [satLookup, List.head?_eq_none_iff, List.map_eq_nil_iff, List.filter_eq_nil_iff]
  intro rec hrec hid
  rw [beq_iff_eq] at hid
  exact h (List.mem_map.mpr ⟨rec, hrec, hid⟩)

theorem cteRun_cycle (fuel : Nat) :
    ∀ acc, cteRun cycleTbl [1] acc fuel = none ∧ cteRun cycleTbl [2] acc fuel = none := by
  induction fuel with
  | zero => intro acc; exact ⟨rfl, rfl⟩
  | succ n ih =>
    intro acc
    have h1 : children cycleTbl 1 = [2] := by decide
    have h2 : children cycleTbl 2 = [1] := by decide
    constructor
    · show cteRun cycleTbl ([] ++ children cycleTbl 1) (acc ++ [1]) n = none
      rw [List.nil_append, h1]
      exact (ih (acc ++ [1])).2
    · show cteRun cycleTbl ([] ++ children cycleTbl 2) (acc ++ [2]) n = none
      rw [List.nil_append, h2]
      exact (ih (acc ++ [2])).1

/-! ### The claims -/

/-- Claim C1: for a fire id `r` present in the fires table, the set of fire
ids whose cluster observations feed the aggregation (the `IN`-subquery result
of `total_fire_power_time_series`) is exactly the merge closure of `r`: `r`
itself together with every fire id whose `merged_into` chain reaches `r`.  In
particular `resolve_closure` gives `{4}` for a fire nothing merged into, and
`{1,2,3}`, `{2,3}`, `{3}` for the members of the chain `3 → 2 → 1`. -/
theorem C1_merge_closure_feeds_aggregation :
    (∀ (tbl : List FireRecord) (r : Int) (fuel : Nat) (l : List Int),
        resolve_closure tbl r fuel = some l → r ∈ fireIds tbl →
        ∀ f, f ∈ l ↔ (f = r ∨ MergesInto tbl f r))
    ∧ resolve_closure chainTbl 1 9 = some [1, 2, 3]
    ∧ resolve_closure chainTbl 2 9 = some [2, 3]
    ∧ resolve_closure chainTbl 3 9 = some [3]
    ∧ resolve_closure soloTbl 4 9 = some [4] := by
  refine ⟨?_, by decide, by decide, by decide, by decide⟩
  intro tbl r fuel l h hr f
  rw [resolve_closure_char tbl r fuel l h f]
  constructor
  · rintro ⟨hfid, hreach⟩
    rcases Relation.ReflTransGen.cases_head hreach with hfr | ⟨c, hfc, hcr⟩
    · exact Or.inl hfr
    · exact Or.inr (Relation.TransGen.head' hfc hcr)
  · rintro (rfl | hmerge)
    · exact ⟨hr, Relation.ReflTransGen.refl⟩
    · refine ⟨?_, hmerge.to_reflTransGen⟩
      rcases (Relation.TransGen.head'_iff).mp hmerge with ⟨b, hfb, _⟩
      rcases hfb with ⟨rec, hrec, hid, _⟩
      exact List.mem_map.mpr ⟨rec, hrec, hid⟩

theorem C1_merge_closure_feeds_aggregation_w :
    (2 : Int) ∈ ([1, 2, 3] : List Int) ↔ ((2 : Int) = 1 ∨ MergesInto chainTbl 2 1) :=
  C1_merge_closure_feeds_aggregation.1 chainTbl 1 9 [1, 2, 3] (by decide) (by decide) 2

/-- Claim C5 (code bug): the recursive CTE of `total_fire_power_time_series`
uses `UNION ALL` and keeps no visited set, so on a table whose `merged_into`
edges form the cycle `1 → 2 → 1` the frontier never empties: for every number
of steps the run is still unfinished, i.e. the resolver hangs instead of
terminating as the claim (and the spec) require. -/
theorem C5_cycle_resolver_never_terminates :
    ∀ fuel : Nat, find_mergers cycleTbl 1 fuel = none :=
  fun fuel => (cteRun_cycle fuel []).1

/-- Claim C8: a fire id whose merge closure is empty is an id that does not
occur in the fires table at all, so the satellite lookup `sat.loc[0]` finds no
row and the whole query raises (modelled `Except.error`) instead of returning
a normal time series. -/
theorem C8_empty_closure_errors (tbl : List FireRecord) (clusters : List Cluster)
    (assocs : List Assoc) (r : Int) (fuel : Nat)
    (h : resolve_closure tbl r fuel = some []) :
    total_fire_power_time_series tbl clusters assocs r fuel =
      some (Except.error "KeyError: 0") := by
  have hnot : r ∉ fireIds tbl := by
    intro hr
    have := (resolve_closure_char tbl r fuel [] h r).mpr ⟨hr, Relation.ReflTransGen.refl⟩
    exact absurd this (List.not_mem_nil r)
  rw [total_fire_power_time_series, h, satLookup_eq_none tbl r hnot]

theorem C8_empty_closure_errors_w :
    total_fire_power_time_series soloTbl [] [] 1 3 = some (Except.error "KeyError: 0") :=
  C8_empty_closure_errors soloTbl [] [] 1 3 (by decide)

/-- Clusters used by the aggregation instances: two observations share scan
time `100`, one sits at scan time `200`. -/
def exClusters : List Cluster := [⟨10, 100, 5, 300⟩, ⟨11, 100, 7, 350⟩, ⟨12, 200, 2, 280⟩]

def exAssocs : List Assoc := [⟨1, 10⟩, ⟨2, 11⟩, ⟨2, 12⟩]

/-- Claim C3: for every closure, the aggregation has exactly one row per
distinct scan time among the closure-owned joined observations, rows sorted
ascending by scan time, each row's total power the sum and maximum temperature
the maximum over the observations at that scan time, and the result only
depends on the membership of the closure list, not on its enumeration
order. -/
theorem C3_aggregation (clusters : List Cluster) (assocs : List Assoc) (cl cl' : List Int)
    (h1 : ∀ x ∈ cl, x ∈ cl') (h2 : ∀ x ∈ cl', x ∈ cl) :
    ((aggregate clusters assocs cl).map (·.st)).Nodup
    ∧ (∀ t, t ∈ (aggregate clusters assocs cl).map (·.st) ↔
        t ∈ (joinedObs clusters assocs cl).map (·.start_time))
    ∧ ((aggregate clusters assocs cl).map (·.st)).Sorted (· < ·)
    ∧ (∀ row ∈ aggregate clusters assocs cl,
        row.power = sumPowers ((joinedObs clusters assocs cl).filter
            (fun c => c.start_time == row.st))
        ∧ row.maxt ∈ ((joinedObs clusters assocs cl).filter
            (fun c => c.start_time == row.st)).map (·.max_temperature)
        ∧ ∀ y ∈ ((joinedObs clusters assocs cl).filter
            (fun c => c.start_time == row.st)).map (·.max_temperature), y ≤ row.maxt)
    ∧ aggregate clusters assocs cl' = aggregate clusters assocs cl := by
  have hobs : joinedObs clusters assocs cl' = joinedObs clusters assocs cl := by
    rw [joinedObs, joinedObs]
    have hf : ∀ a : Assoc, a ∈ assocs →
        (decide (a.fire_id ∈ cl') = decide (a.fire_id ∈ cl)) := by
      intro a _
      exact decide_eq_decide.mpr ⟨h2 a.fire_id, h1 a.fire_id⟩
    rw [List.filter_congr hf]
  refine ⟨?_, ?_, ?_, ?_, ?_⟩
  · rw [aggregate_map_st]
    exact nodup_sortedKeys _
  · intro t
    rw [aggregate_map_st, mem_sortedKeys]
  · rw [aggregate_map_st]
    exact sorted_sortedKeys _
  · intro row hrow
    rw [aggregate] at hrow
    rcases List.mem_map.mp hrow with ⟨t, ht, rfl⟩
    refine ⟨rfl, ?_, ?_⟩
    · show maxTemp ((joinedObs clusters assocs cl).filter (fun c => c.start_time == t)) ∈
        ((joinedObs clusters assocs cl).filter
          (fun c => c.start_time == t)).map (·.max_temperature)
      refine listMaxR_mem _ ?_
      rw [Ne, List.map_eq_nil_iff]
      intro hnil
      rw [mem_sortedKeys] at ht
      rcases List.mem_map.mp ht with ⟨c, hc, hct⟩
      have hcf : c ∈ (joinedObs clusters assocs cl).filter (fun c' => c'.start_time == t) := by
        rw [List.mem_filter]
        exact ⟨hc, by rw [beq_iff_eq]; exact hct⟩
      rw [hnil] at hcf
      exact absurd hcf (List.not_mem_nil c)
    · show ∀ y ∈ ((joinedObs clusters assocs cl).filter
          (fun c => c.start_time == t)).map (·.max_temperature),
        y ≤ maxTemp ((joinedObs clusters assocs cl).filter (fun c => c.start_time == t))
      intro y hy
      exact le_listMaxR _ y hy
  · rw [aggregate, aggregate, hobs]

theorem C3_aggregation_w :
    aggregate exClusters exAssocs [2, 1] = aggregate exClusters exAssocs [1, 2] :=
  (C3_aggregation exClusters exAssocs [1, 2] [2, 1] (by decide) (by decide)).2.2.2.2

/-- Scan time `14:00Z` on epoch day 200 (power 1, max temperature 300). -/
def exRow1 : TSRow := ⟨86400 * 200 + 3600 * 14, 1, 300⟩

/-- Scan time `16:00Z` on the same day (power 2, max temperature 310). -/
def exRow2 : TSRow := ⟨86400 * 200 + 3600 * 16, 2, 310⟩

/-- Claim C2 (code bug): `to_date` in `total_fire_power_by_day` returns the
bound `.date` method instead of calling it, so the data frame is grouped by
the full shifted timestamp rather than by its calendar date.  Two rows whose
shifted timestamps fall on the same calendar date (here 14:00Z and 16:00Z with
`break_hour_z = 12`) end up in two different groups, where the claim requires
one day group. -/
theorem C2_burn_day_grouping_bug :
    burn_day 12 exRow1.st = burn_day 12 exRow2.st
    ∧ (total_fire_power_by_day_groups 12 [exRow1, exRow2]).length = 2
    ∧ (¬ ∃ g ∈ total_fire_power_by_day_groups 12 [exRow1, exRow2],
        exRow1 ∈ g.2 ∧ exRow2 ∈ g.2) := by decide

/-- Scan time `13:00Z` on epoch day 300. -/
def exRow3 : TSRow := ⟨86400 * 300 + 3600 * 13, 3, 320⟩

/-- Scan time `20:00Z` on the same day. -/
def exRow4 : TSRow := ⟨86400 * 300 + 3600 * 20, 4, 330⟩

/-- Claim C6 (code bug): for an input sequence sorted ascending by scan time,
grouping by burn day would put these two rows (same shifted calendar date) in
one day group, but the code's grouping key — the uncalled bound `.date`
method, i.e. the full shifted timestamp — produces two groups, so the output
of `total_fire_power_by_day` is not a partition into day groups. -/
theorem C6_bucketize_partition_bug :
    exRow3.st < exRow4.st
    ∧ burn_day 12 exRow3.st = burn_day 12 exRow4.st
    ∧ (groups_by_burn_day 12 [exRow3, exRow4]).length = 1
    ∧ (total_fire_power_by_day_groups 12 [exRow3, exRow4]).length = 2
    ∧ (¬ ∃ g ∈ total_fire_power_by_day_groups 12 [exRow3, exRow4],
        exRow3 ∈ g.2 ∧ exRow4 ∈ g.2) := by decide

/-- Claim C4: the `second of burn day` column is the number of seconds since
the shifted midnight — `hour*3600 + minute*60 + second` of the shifted
timestamp equals `(scan_time - 3600*break_hour) mod 86400`, which always lies
in `[0, 86400)` — and for `break_hour_z = 12` the rows at 2023-06-01T10:00Z
(epoch 1685613600) and 2023-06-01T14:00Z (epoch 1685628000) get seconds 79200
and 7200 and shifted calendar dates 2023-05-31 (epoch day 19508) and
2023-06-01 (epoch day 19509). -/
theorem C4_second_of_burn_day :
    (∀ bh t : Int, to_second_of_burn_day bh t = (t - 3600 * bh) % 86400
        ∧ 0 ≤ to_second_of_burn_day bh t ∧ to_second_of_burn_day bh t < 86400)
    ∧ to_second_of_burn_day 12 1685613600 = 79200
    ∧ to_second_of_burn_day 12 1685628000 = 7200
    ∧ burn_day 12 1685613600 = 19508
    ∧ burn_day 12 1685628000 = 19509 := by
  refine ⟨?_, by decide, by decide, by decide, by decide⟩
  intro bh t
  rw [to_second_of_burn_day, timeHour, timeMinute, timeSecond]
  omega

/-- Claim C7: the day set of the N-way aligner is the sorted union of the
burn-day keys of all input series, and a missing day never raises: every day a
series does hold data for has a panel (`axs_dict` lookup succeeds), and a
series with no data on a day simply contributes nothing to that day's
panel. -/
theorem C7_aligner_union (datas : List (Int × List (Int × List TSRow))) :
    (all_days (datas.map (·.2))).Sorted (· < ·)
    ∧ (∀ d, d ∈ all_days (datas.map (·.2)) ↔ ∃ p ∈ datas, ∃ q ∈ p.2, q.1 = d)
    ∧ (∀ p ∈ datas, ∀ q ∈ p.2, axsLookup (all_days (datas.map (·.2))) q.1 ≠ none)
    ∧ (∀ d : Int, ∀ p ∈ datas, (∀ q ∈ p.2, q.1 ≠ d) → seriesEntries d p = []) := by
  have hmem : ∀ d, d ∈ all_days (datas.map (·.2)) ↔ ∃ p ∈ datas, ∃ q ∈ p.2, q.1 = d := by
    intro d
    rw [all_days, mem_sortedKeys, List.mem_flatMap]
    constructor
    · rintro ⟨s, hs, hd⟩
      rcases List.mem_map.mp hs with ⟨p, hp, rfl⟩
      rcases List.mem_map.mp hd with ⟨q, hq, hqd⟩
      exact ⟨p, hp, q, hq, hqd⟩
    · rintro ⟨p, hp, q, hq, hqd⟩
      exact ⟨p.2, List.mem_map.mpr ⟨p, hp, rfl⟩, List.mem_map.mpr ⟨q, hq, hqd⟩⟩
  refine ⟨sorted_sortedKeys _, hmem, ?_, ?_⟩
  · intro p hp q hq hnone
    rw [axsLookup, List.findIdx?_eq_none_iff] at hnone
    have hd : q.1 ∈ all_days (datas.map (·.2)) := (hmem q.1).mpr ⟨p, hp, q, hq, rfl⟩
    have := hnone q.1 hd
    simp at this
  · intro d p _ hq
    rw [seriesEntries, List.map_eq_nil_iff, List.filter_eq_nil_iff]
    intro q hqmem hqd
    rw [beq_iff_eq] at hqd
    exact hq q hqmem hqd

def exDatas : List (Int × List (Int × List TSRow)) := [(7, [(5, [])]), (8, [(6, [])])]

theorem C7_aligner_union_w :
    axsLookup (all_days (exDatas.map (·.2))) 5 ≠ none :=
  (C7_aligner_union exDatas).2.2.1 (7, [(5, [])]) (by decide) (5, []) (by decide)

/-- Claim C9 (modelled from the spec, the join-mode aligner is not in `src/`):
the exactly-two-series alignment keeps exactly the days present in both
series — a day absent from either series is dropped — and on days held by only
one series it differs from the union-of-days day set of the N-way aligner. -/
theorem C9_two_series_join :
    (∀ (s1 s2 : List (Int × List TSRow)) (d : Int),
        d ∈ alignTwoJoinDays s1 s2 ↔ d ∈ s1.map Prod.fst ∧ d ∈ s2.map Prod.fst)
    ∧ alignTwoJoinDays [(5, [])] [(6, [])] = []
    ∧ all_days [[(5, [])], [(6, [])]] = [5, 6] := by
  refine ⟨?_, by decide, by decide⟩
  intro s1 s2 d
  rw [alignTwoJoinDays, mem_sortedKeys, List.mem_filter]
  simp only [decide_eq_true_eq]

/-- Claim C10: `make_daily_fire_power_plot` normalises a bare integer
`fire_id` to the one-element tuple `(fire_id,)` before doing anything else, so
with identical remaining arguments the scalar call and the singleton-sequence
call assemble identical plot data. -/
theorem C10_scalar_fire_id (tbl : List FireRecord) (clusters : List Cluster)
    (assocs : List Assoc) (f break_hour_z : Int) (fuel : Nat) (startDay stopDay : Option Int) :
    make_daily_fire_power_plot_data tbl clusters assocs (FireIdArg.scalar f) break_hour_z fuel
        startDay stopDay =
      make_daily_fire_power_plot_data tbl clusters assocs (FireIdArg.seq [f]) break_hour_z fuel
        startDay stopDay := rfl

end Satfire
